import Mathlib

/-!
Verification development for the validator web server.

The server (files `main.py`, `tasks.py`, `models.py`, `database.py`,
`key_manager.py`) accepts batch requests for validator keys, records a
`ValidatorRequest` row with status `started`, spawns one background job per
request, and the job generates keys one by one, persisting each
`ValidatorKey` row immediately before finally writing a terminal status
(`successful` or `failed`) onto the request row.

This file shallowly embeds that code:
  * the durable SQLite store becomes a `Store` of two insertion-ordered lists
    of rows;
  * the background job `tasks.process_validator_creation` becomes a function
    parameterized by a fault oracle (per-item key generation either yields a
    key, raises, or its commit raises) and by a flag saying whether the final
    status write itself raises — mirroring exactly the exception paths of the
    Python code;
  * the HTTP handlers of `main.py` become functions from the store to
    responses;
  * concurrency (many jobs interleaved with submissions and polls) becomes a
    small-step relation `Step` over a system state holding the store and the
    set of in-flight jobs.

Timestamps are modelled as logical `Nat` instants passed in as `now`.
-/

namespace WebServer

/-- Request status values. `database.py` stores them as strings; `started`,
`successful` and `failed` are the only values the code ever writes. -/
inductive Status
  | started
  | successful
  | failed
deriving DecidableEq

/-- A row of the `validator_requests` table (`database.py`, class
`ValidatorRequest`). `request_id` is the primary key. -/
structure ValidatorRequest where
  request_id : String
  num_validators : Nat
  fee_recipient : String
  status : Status
  created_at : Nat
  updated_at : Nat
deriving DecidableEq

/-- A row of the `validator_keys` table (`database.py`, class `ValidatorKey`).
The autoincrement `key_id` corresponds to the position of the row in the
insertion-ordered list; the `created_at` column plays no role in any
observable behaviour and is not modelled. -/
structure ValidatorKey where
  request_id : String
  key : String
  fee_recipient : String
deriving DecidableEq

/-- The durable store: both tables, rows in insertion order. -/
structure Store where
  requests : List ValidatorRequest
  keys : List ValidatorKey
deriving DecidableEq

/-- `select(ValidatorRequest).where(request_id == rid)` followed by
`scalar_one_or_none()`: `request_id` is the primary key, so at most one row
matches; we model the lookup as the first match in insertion order. -/
def findRequest (s : Store) (rid : String) : Option ValidatorRequest :=
  s.requests.find? (fun r => r.request_id == rid)

/-- The status stored for a request id, if the request exists. -/
def statusOf (s : Store) (rid : String) : Option Status :=
  (findRequest s rid).map (fun r => r.status)

/-- `select(ValidatorKey.key).where(request_id == rid)` (`main.py`): the key
values of all rows for `rid`, in insertion order (SQLite returns the rows of
this plain scan in rowid = insertion order). -/
def keysFor (s : Store) (rid : String) : List String :=
  (s.keys.filter (fun k => k.request_id == rid)).map (fun k => k.key)

/-- Number of persisted `ValidatorKey` rows for a request id. -/
def countKeys (s : Store) (rid : String) : Nat :=
  (s.keys.filter (fun k => k.request_id == rid)).length

/-- The in-session update performed by `tasks.update_request_status` once the
row is found: overwrite `status`; the ORM `onupdate` hook (`database.py`)
refreshes `updated_at` to the current time on commit. Only the first row with
the given id can exist (primary key), so only it is updated. -/
def setStatusFirst (rid : String) (st : Status) (now : Nat) :
    List ValidatorRequest → List ValidatorRequest
  | [] => []
  | r :: rs =>
    if r.request_id == rid then { r with status := st, updated_at := now } :: rs
    else r :: setStatusFirst rid st now rs

/-- `tasks.update_request_status(request_id, status)`. The whole body is
wrapped in `try/except` that logs and swallows every exception, so a store
fault during the write (`writeFault = true`) leaves the store unchanged and
raises nothing; if the row is absent the miss is logged and nothing is
written; otherwise status (and `updated_at`) are overwritten unconditionally. -/
def update_request_status (rid : String) (st : Status) (writeFault : Bool) (now : Nat)
    (s : Store) : Store :=
  if writeFault then s
  else { s with requests := setStatusFirst rid st now s.requests }

/-- Outcome of one loop iteration of the background job, as decided by the
environment: key generation returns a key value and its commit succeeds
(`ok`), key generation raises (`genFail`, caught by the job's outer
`try/except`), or `session.commit()` for the key raises (`persistFail`,
caught by the inner `try/except`). -/
inductive StepOutcome
  | ok (key : String)
  | genFail
  | persistFail
deriving DecidableEq

/-- Whether an iteration outcome is the successful one. -/
def StepOutcome.isOk : StepOutcome → Bool
  | .ok _ => true
  | _ => false

/-- The loop of `tasks.process_validator_creation`, started at iteration
index `i` with `n` iterations left. Each `ok` iteration appends one
`ValidatorKey` row; the first non-`ok` iteration writes status `failed` and
stops; if all iterations succeed, status `successful` is written. The final
status write itself goes through `update_request_status`, whose own fault
flag is `statusFault`. -/
def processFrom (rid : String) (fee_recipient : String) (oracle : Nat → StepOutcome)
    (statusFault : Bool) (now : Nat) : Nat → Nat → Store → Store
  | _, 0, s => update_request_status rid Status.successful statusFault now s
  | i, n + 1, s =>
    match oracle i with
    | StepOutcome.ok k =>
        processFrom rid fee_recipient oracle statusFault now (i + 1) n
          { s with keys := s.keys ++ [⟨rid, k, fee_recipient⟩] }
    | StepOutcome.genFail => update_request_status rid Status.failed statusFault now s
    | StepOutcome.persistFail => update_request_status rid Status.failed statusFault now s

/-- `tasks.process_validator_creation(request_id, num_validators,
fee_recipient)`: run the loop from iteration 0. -/
def process_validator_creation (rid : String) (num_validators : Nat)
    (fee_recipient : String) (oracle : Nat → StepOutcome) (statusFault : Bool)
    (now : Nat) (s : Store) : Store :=
  processFrom rid fee_recipient oracle statusFault now 0 num_validators s

/-- The `ValidatorKey` rows the loop persists: one per `ok` iteration up to
(and not including) the first non-`ok` iteration, in generation order. -/
def producedKeys (rid : String) (fee_recipient : String) (oracle : Nat → StepOutcome) :
    Nat → Nat → List ValidatorKey
  | _, 0 => []
  | i, n + 1 =>
    match oracle i with
    | StepOutcome.ok k => ⟨rid, k, fee_recipient⟩ :: producedKeys rid fee_recipient oracle (i + 1) n
    | _ => []

/-- Whether every one of the `n` iterations starting at index `i` succeeds. -/
def runOk (oracle : Nat → StepOutcome) : Nat → Nat → Bool
  | _, 0 => true
  | i, n + 1 => (oracle i).isOk && runOk oracle (i + 1) n

/-! ## The HTTP layer (`main.py`, `models.py`) -/

/-- How a request fails at the HTTP boundary: `notFound` is the 404 raised by
`get_validator_status`; `validationError` is the 422 produced when pydantic
rejects the body of `POST /validators`; `persistenceError` is the error
surfaced when the initial `db.commit()` in `create_validator_request`
raises. -/
inductive ApiError
  | notFound
  | validationError
  | persistenceError
deriving DecidableEq

/-- `models.CreateValidatorResponse`. -/
structure CreateValidatorResponse where
  request_id : String
  message : String
deriving DecidableEq

/-- `models.ValidatorStatusResponse`: `keys` and `message` are optional and
absent unless the handler sets them. -/
structure ValidatorStatusResponse where
  status : Status
  keys : Option (List String)
  message : Option String
deriving DecidableEq

/-- The background task handed to `asyncio.create_task` by
`tasks.spawn_validator_task`, before it has run. -/
structure PendingJob where
  request_id : String
  num_validators : Nat
  fee_recipient : String
deriving DecidableEq

/-- Hexadecimal character class `[a-fA-F0-9]` of the address pattern in
`models.py`. -/
def isHexChar (c : Char) : Bool :=
  (decide (Char.toNat '0' ≤ c.toNat) && decide (c.toNat ≤ Char.toNat '9')) ||
    (decide (Char.toNat 'a' ≤ c.toNat) && decide (c.toNat ≤ Char.toNat 'f')) ||
    (decide (Char.toNat 'A' ≤ c.toNat) && decide (c.toNat ≤ Char.toNat 'F'))

/-- `models.CreateValidatorRequest.validate_ethereum_address`: the value must
match `re.match(r"^0x[a-fA-F0-9]{40}$", v)`. In Python (no `re.MULTILINE`),
`$` matches at the end of the string and also just before a single newline at
the end of the string, so the accepted values are `0x` followed by exactly 40
hex characters, optionally followed by one trailing `\n`. Modelled by
stripping one final newline, then requiring `0x` + 40 hex characters
exactly. -/
def validate_ethereum_address (v : String) : Bool :=
  match (if v.toList.getLast? == some (Char.ofNat 10) then v.toList.dropLast
    else v.toList) with
  | '0' :: 'x' :: rest => rest.length == 40 && rest.all isHexChar
  | _ => false

/-- `models.CreateValidatorRequest` after pydantic validation succeeded:
`num_validators` carried `gt=0`, so it is stored as a positive count. -/
structure CreateValidatorRequest where
  num_validators : Nat
  fee_recipient : String
deriving DecidableEq

/-- Pydantic validation of the `POST /validators` body
(`models.CreateValidatorRequest`): reject unless `num_validators > 0`
(`Field(..., gt=0)`) and the fee recipient matches the address pattern.
FastAPI runs this before the handler, answering 422 on failure. -/
def parse_create_validator_request (num_validators : Int) (fee_recipient : String) :
    Except ApiError CreateValidatorRequest :=
  if num_validators ≤ 0 then Except.error ApiError.validationError
  else if validate_ethereum_address fee_recipient then
    Except.ok ⟨num_validators.toNat, fee_recipient⟩
  else Except.error ApiError.validationError

/-- `main.create_validator_request` (the handler body, after validation):
build a fresh `ValidatorRequest` row with status `started`, `db.add` it and
`db.commit()`. If the commit raises (`commitFault`), the error escapes the
handler — nothing was durably written and `spawn_validator_task` is never
reached. Otherwise `spawn_validator_task` registers exactly one background
task and the handler answers 202 with the request id. The returned triple is
(response, store after the call, background tasks spawned by the call). -/
def create_validator_request (rid : String) (num_validators : Nat)
    (fee_recipient : String) (commitFault : Bool) (now : Nat) (s : Store) :
    Except ApiError CreateValidatorResponse × Store × List PendingJob :=
  if commitFault then (Except.error ApiError.persistenceError, s, [])
  else
    (Except.ok ⟨rid, "Validator creation in progress"⟩,
      { s with requests :=
          s.requests ++ [⟨rid, num_validators, fee_recipient, Status.started, now, now⟩] },
      [⟨rid, num_validators, fee_recipient⟩])

/-- `POST /validators` end to end: pydantic validation first, then the
handler. -/
def post_validators (num_validators : Int) (fee_recipient : String) (rid : String)
    (commitFault : Bool) (now : Nat) (s : Store) :
    Except ApiError CreateValidatorResponse × Store × List PendingJob :=
  match parse_create_validator_request num_validators fee_recipient with
  | Except.error e => (Except.error e, s, [])
  | Except.ok req =>
      create_validator_request rid req.num_validators req.fee_recipient commitFault now s

/-- `main.get_validator_status`: look the request up; 404 if absent; if
`successful`, attach the key values for the id; if `failed`, attach the
generic message; otherwise (`started`) return the bare status. -/
def get_validator_status (rid : String) (s : Store) :
    Except ApiError ValidatorStatusResponse :=
  match findRequest s rid with
  | none => Except.error ApiError.notFound
  | some r =>
    match r.status with
    | Status.successful => Except.ok ⟨Status.successful, some (keysFor s rid), none⟩
    | Status.failed => Except.ok ⟨Status.failed, none, some "Error processing request"⟩
    | Status.started => Except.ok ⟨Status.started, none, none⟩

/-! ## System semantics

The server runs many background jobs concurrently with submissions and
status polls. Polls are pure reads; the state-changing events are: a
successful or failed `POST /validators`, one loop iteration of some
in-flight job (generate + persist one key, or hit a fault), and a job's
terminal status write. `Step` is that interleaving semantics; storage
faults appear as the same nondeterministic choices as in the functional
embedding above. -/

/-- One in-flight background job (`tasks.process_validator_creation` part-way
through its loop): the arguments it was spawned with and the number of loop
iterations it still has to run. -/
structure JobState where
  request_id : String
  fee_recipient : String
  remaining : Nat
deriving DecidableEq

/-- Whole-system state: the durable store plus the in-flight background jobs. -/
structure Sys where
  store : Store
  jobs : List JobState
deriving DecidableEq

/-- One atomic state change of the system.

* `submit`: a `POST /validators` whose initial commit succeeds — the fresh
  request row (uuid4 ids never collide with existing rows) is appended
  with status `started` and exactly one job is spawned
  (`main.create_validator_request` + `tasks.spawn_validator_task`);
* `submitFault`: a `POST /validators` whose initial commit raises — nothing
  is written and no job is spawned;
* `itemOk`: one loop iteration of an in-flight job generates key `k` and
  commits the `ValidatorKey` row;
* `itemFail`: one loop iteration hits a generation or key-commit fault: the
  job writes status `failed` (that write itself may be swallowed, `wf`) and
  terminates;
* `finish`: a job whose loop is exhausted writes status `successful` (again
  possibly swallowed) and terminates. -/
inductive Step : Sys → Sys → Prop
  | submit (σ : Sys) (rid : String) (n : Nat) (fr : String) (now : Nat)
      (hfresh : findRequest σ.store rid = none) (hn : 0 < n) :
      Step σ ⟨{ σ.store with requests :=
            σ.store.requests ++ [⟨rid, n, fr, Status.started, now, now⟩] },
          σ.jobs ++ [⟨rid, fr, n⟩]⟩
  | submitFault (σ : Sys) : Step σ σ
  | itemOk (σ : Sys) (pre post : List JobState) (j : JobState) (m : Nat) (k : String)
      (hjobs : σ.jobs = pre ++ j :: post) (hrem : j.remaining = m + 1) :
      Step σ ⟨{ σ.store with keys :=
            σ.store.keys ++ [⟨j.request_id, k, j.fee_recipient⟩] },
          pre ++ { j with remaining := m } :: post⟩
  | itemFail (σ : Sys) (pre post : List JobState) (j : JobState) (m : Nat)
      (wf : Bool) (now : Nat)
      (hjobs : σ.jobs = pre ++ j :: post) (hrem : j.remaining = m + 1) :
      Step σ ⟨update_request_status j.request_id Status.failed wf now σ.store, pre ++ post⟩
  | finish (σ : Sys) (pre post : List JobState) (j : JobState) (wf : Bool) (now : Nat)
      (hjobs : σ.jobs = pre ++ j :: post) (hrem : j.remaining = 0) :
      Step σ ⟨update_request_status j.request_id Status.successful wf now σ.store, pre ++ post⟩

/-- Finitely many system steps (reflexive-transitive closure of `Step`). -/
inductive Steps : Sys → Sys → Prop
  | refl (σ : Sys) : Steps σ σ
  | tail (σ σ2 σ3 : Sys) : Steps σ σ2 → Step σ2 σ3 → Steps σ σ3

/-- System invariant: every in-flight job belongs to an existing request that
is still `started` (jobs are spawned together with their fresh `started` row
and are removed exactly when they write their terminal status), and no two
in-flight jobs share a request id (exactly one job is ever spawned per
request). -/
def Inv (σ : Sys) : Prop :=
  (∀ j ∈ σ.jobs, statusOf σ.store j.request_id = some Status.started) ∧
  (σ.jobs.map (fun j => j.request_id)).Nodup

/-- No in-flight job works on behalf of request `rid`. -/
def NoJob (σ : Sys) (rid : String) : Prop :=
  ∀ j ∈ σ.jobs, j.request_id ≠ rid

/-! ## Helper lemmas -/

/-- Characterization of the background job loop: it appends exactly the
produced keys and then writes the terminal status determined by whether the
whole run succeeded. -/
theorem processFrom_spec (rid fr : String) (oracle : Nat → StepOutcome)
    (statusFault : Bool) (now : Nat) :
    ∀ (n i : Nat) (s : Store),
      processFrom rid fr oracle statusFault now i n s =
        update_request_status rid
          (if runOk oracle i n then Status.successful else Status.failed)
          statusFault now
          { s with keys := s.keys ++ producedKeys rid fr oracle i n } := by
  intro n
  induction n with
  | zero =>
    intro i s
    simp [processFrom, producedKeys, runOk]
  | succ m ih =>
    intro i s
    cases h : oracle i with
    | ok k =>
      simp only [processFrom, producedKeys, runOk, h, StepOutcome.isOk, Bool.true_and,
        ih (i + 1)]
      simp [List.append_assoc]
    | genFail =>
      simp [processFrom, producedKeys, runOk, h, StepOutcome.isOk]
    | persistFail =>
      simp [processFrom, producedKeys, runOk, h, StepOutcome.isOk]

/-- A swallowed fault during the status write changes nothing. -/
theorem update_request_status_fault (rid : String) (st : Status) (now : Nat) (s : Store) :
    update_request_status rid st true now s = s := rfl

/-- The status write never touches the keys table. -/
theorem update_request_status_keys (rid : String) (st : Status) (wf : Bool) (now : Nat)
    (s : Store) : (update_request_status rid st wf now s).keys = s.keys := by
  cases wf <;> simp [update_request_status]

/-- If no row matches, `setStatusFirst` is the identity. -/
theorem setStatusFirst_of_none (rid : String) (st : Status) (now : Nat) :
    ∀ l : List ValidatorRequest,
      l.find? (fun r => r.request_id == rid) = none → setStatusFirst rid st now l = l
  | [], _ => rfl
  | r :: rs, h => by
    by_cases hr : r.request_id = rid
    · rw [List.find?_cons_of_pos _ (by simp [hr])] at h
      exact absurd h (by simp)
    · rw [List.find?_cons_of_neg _ (by simp [hr])] at h
      simp only [setStatusFirst, beq_iff_eq, hr, if_false]
      rw [setStatusFirst_of_none rid st now rs h]

/-- Looking up the updated id after `setStatusFirst` finds the overwritten
row. -/
theorem find?_setStatusFirst_self (rid : String) (st : Status) (now : Nat) :
    ∀ l : List ValidatorRequest,
      (setStatusFirst rid st now l).find? (fun r => r.request_id == rid) =
        (l.find? (fun r => r.request_id == rid)).map
          (fun r => { r with status := st, updated_at := now })
  | [] => by simp [setStatusFirst]
  | r :: rs => by
    by_cases hr : r.request_id = rid
    · simp [setStatusFirst, List.find?_cons, hr]
    · simp [setStatusFirst, List.find?_cons, hr, find?_setStatusFirst_self rid st now rs]

/-- Looking up a different id after `setStatusFirst` is unchanged. -/
theorem find?_setStatusFirst_ne (rid rid2 : String) (st : Status) (now : Nat)
    (hne : rid ≠ rid2) :
    ∀ l : List ValidatorRequest,
      (setStatusFirst rid st now l).find? (fun r => r.request_id == rid2) =
        l.find? (fun r => r.request_id == rid2)
  | [] => by simp [setStatusFirst]
  | r :: rs => by
    by_cases hr : r.request_id = rid
    · simp [setStatusFirst, List.find?_cons, hr, hne]
    · simp [setStatusFirst, List.find?_cons, hr, find?_setStatusFirst_ne rid rid2 st now hne rs]

/-- Effect of a successful status write on the lookup of the same id. -/
theorem findRequest_update_self (rid : String) (st : Status) (now : Nat) (s : Store) :
    findRequest (update_request_status rid st false now s) rid =
      (findRequest s rid).map (fun r => { r with status := st, updated_at := now }) := by
  simp [findRequest, update_request_status, find?_setStatusFirst_self]

/-- A status write for one id does not disturb the lookup of another id. -/
theorem findRequest_update_ne (rid rid2 : String) (st : Status) (wf : Bool) (now : Nat)
    (s : Store) (hne : rid ≠ rid2) :
    findRequest (update_request_status rid st wf now s) rid2 = findRequest s rid2 := by
  cases wf <;> simp [findRequest, update_request_status, find?_setStatusFirst_ne rid rid2 st now hne]

/-- Every row the job loop produces belongs to the job's request. -/
theorem producedKeys_request_id (rid fr : String) (oracle : Nat → StepOutcome) :
    ∀ (n i : Nat), ∀ kk ∈ producedKeys rid fr oracle i n, kk.request_id = rid := by
  intro n
  induction n with
  | zero => intro i kk h; simp [producedKeys] at h
  | succ m ih =>
    intro i kk h
    cases ho : oracle i with
    | ok k =>
      rw [producedKeys, ho] at h
      rcases List.mem_cons.mp h with h | h
      · rw [h]
      · exact ih (i + 1) kk h
    | genFail => rw [producedKeys, ho] at h; simp at h
    | persistFail => rw [producedKeys, ho] at h; simp at h

/-- The loop never produces more rows than it has iterations. -/
theorem producedKeys_length_le (rid fr : String) (oracle : Nat → StepOutcome) :
    ∀ (n i : Nat), (producedKeys rid fr oracle i n).length ≤ n := by
  intro n
  induction n with
  | zero => intro i; simp [producedKeys]
  | succ m ih =>
    intro i
    cases ho : oracle i with
    | ok k => simpa [producedKeys, ho] using ih (i + 1)
    | genFail => simp [producedKeys, ho]
    | persistFail => simp [producedKeys, ho]

/-- The loop produces a full complement of rows exactly when every iteration
succeeds. -/
theorem producedKeys_length_eq_iff (rid fr : String) (oracle : Nat → StepOutcome) :
    ∀ (n i : Nat), (producedKeys rid fr oracle i n).length = n ↔ runOk oracle i n = true := by
  intro n
  induction n with
  | zero => intro i; simp [producedKeys, runOk]
  | succ m ih =>
    intro i
    cases ho : oracle i with
    | ok k => simp [producedKeys, runOk, ho, StepOutcome.isOk, ih (i + 1)]
    | genFail => simp [producedKeys, runOk, ho, StepOutcome.isOk]
    | persistFail => simp [producedKeys, runOk, ho, StepOutcome.isOk]

/-- If the first `m` iterations succeed and iteration `m` faults, the loop
with any length `n > m` produces exactly the rows of the first `m`
iterations, and the run fails. -/
theorem producedKeys_stop (rid fr : String) (oracle : Nat → StepOutcome) :
    ∀ (m i : Nat), runOk oracle i m = true → (oracle (i + m)).isOk = false →
      ∀ n, m < n →
        producedKeys rid fr oracle i n = producedKeys rid fr oracle i m ∧
          runOk oracle i n = false := by
  intro m
  induction m with
  | zero =>
    intro i _ hfail n hn
    obtain ⟨n', rfl⟩ : ∃ n', n = n' + 1 := ⟨n - 1, by omega⟩
    rw [Nat.add_zero] at hfail
    cases ho : oracle i with
    | ok k => rw [ho] at hfail; simp [StepOutcome.isOk] at hfail
    | genFail => simp [producedKeys, runOk, ho, StepOutcome.isOk]
    | persistFail => simp [producedKeys, runOk, ho, StepOutcome.isOk]
  | succ m' ih =>
    intro i hok hfail n hn
    obtain ⟨n', rfl⟩ : ∃ n', n = n' + 1 := ⟨n - 1, by omega⟩
    rw [runOk] at hok
    cases ho : oracle i with
    | ok k =>
      rw [ho] at hok
      simp only [StepOutcome.isOk, Bool.true_and] at hok
      have hfail' : (oracle (i + 1 + m')).isOk = false := by
        have : i + 1 + m' = i + (m' + 1) := by omega
        rw [this]; exact hfail
      obtain ⟨h1, h2⟩ := ih (i + 1) hok hfail' n' (by omega)
      refine ⟨?_, ?_⟩
      · simp [producedKeys, ho, h1]
      · simp [runOk, ho, StepOutcome.isOk, h2]
    | genFail => rw [ho] at hok; simp [StepOutcome.isOk] at hok
    | persistFail => rw [ho] at hok; simp [StepOutcome.isOk] at hok

/-- With a never-failing generator yielding `k i` at iteration `i`, the loop
produces exactly one row per iteration, in generation order. -/
theorem producedKeys_all_ok (rid fr : String) (k : Nat → String) :
    ∀ (n i : Nat),
      producedKeys rid fr (fun j => StepOutcome.ok (k j)) i n =
        (List.range n).map (fun j => ⟨rid, k (i + j), fr⟩) := by
  intro n
  induction n with
  | zero => intro i; simp [producedKeys]
  | succ m ih =>
    intro i
    have harg : (fun j => (⟨rid, k (i + 1 + j), fr⟩ : ValidatorKey)) =
        fun j => ⟨rid, k (i + (j + 1)), fr⟩ := by
      funext j
      have : i + 1 + j = i + (j + 1) := by omega
      rw [this]
    rw [List.range_succ_eq_map]
    simp only [producedKeys, ih (i + 1), harg, List.map_cons, List.map_map]
    simp [Function.comp]

/-- A never-failing generator completes every run. -/
theorem runOk_all_ok (k : Nat → String) :
    ∀ (n i : Nat), runOk (fun j => StepOutcome.ok (k j)) i n = true := by
  intro n
  induction n with
  | zero => intro i; simp [runOk]
  | succ m ih => intro i; simp [runOk, StepOutcome.isOk, ih (i + 1)]

/-- Filtering the keys table after the loop appends its rows splits cleanly:
every appended row matches the job's request id. -/
theorem filter_append_producedKeys (rid fr : String) (oracle : Nat → StepOutcome)
    (n i : Nat) (l : List ValidatorKey) :
    (l ++ producedKeys rid fr oracle i n).filter (fun kk => kk.request_id == rid) =
      l.filter (fun kk => kk.request_id == rid) ++ producedKeys rid fr oracle i n := by
  rw [List.filter_append]
  congr 1
  rw [List.filter_eq_self]
  intro kk hk
  simp [producedKeys_request_id rid fr oracle n i kk hk]

/-- The keys table after a full job run: the old rows followed by the
produced rows. -/
theorem process_keys (rid : String) (n : Nat) (fr : String) (oracle : Nat → StepOutcome)
    (sf : Bool) (now : Nat) (s : Store) :
    (process_validator_creation rid n fr oracle sf now s).keys =
      s.keys ++ producedKeys rid fr oracle 0 n := by
  rw [process_validator_creation, processFrom_spec, update_request_status_keys]

/-- The requests table after a full job run: unchanged if the terminal status
write faulted, otherwise the terminal status (determined by whether every
iteration succeeded) is written onto the request row. -/
theorem process_requests (rid : String) (n : Nat) (fr : String) (oracle : Nat → StepOutcome)
    (sf : Bool) (now : Nat) (s : Store) :
    (process_validator_creation rid n fr oracle sf now s).requests =
      if sf then s.requests
      else setStatusFirst rid (if runOk oracle 0 n then Status.successful else Status.failed)
        now s.requests := by
  rw [process_validator_creation, processFrom_spec]
  cases sf <;> simp [update_request_status]

/-- Key count for the job's request after a full run. -/
theorem countKeys_process (rid : String) (n : Nat) (fr : String) (oracle : Nat → StepOutcome)
    (sf : Bool) (now : Nat) (s : Store) :
    countKeys (process_validator_creation rid n fr oracle sf now s) rid =
      countKeys s rid + (producedKeys rid fr oracle 0 n).length := by
  unfold countKeys
  rw [process_keys, filter_append_producedKeys, List.length_append]

/-- Key values for the job's request after a full run. -/
theorem keysFor_process (rid : String) (n : Nat) (fr : String) (oracle : Nat → StepOutcome)
    (sf : Bool) (now : Nat) (s : Store) :
    keysFor (process_validator_creation rid n fr oracle sf now s) rid =
      keysFor s rid ++ (producedKeys rid fr oracle 0 n).map (fun kk => kk.key) := by
  unfold keysFor
  rw [process_keys, filter_append_producedKeys, List.map_append]

/-- Stored status of the job's request after a full run whose terminal status
write succeeds. -/
theorem statusOf_process (rid : String) (n : Nat) (fr : String) (oracle : Nat → StepOutcome)
    (now : Nat) (s : Store) :
    statusOf (process_validator_creation rid n fr oracle false now s) rid =
      (statusOf s rid).map
        (fun _ => if runOk oracle 0 n then Status.successful else Status.failed) := by
  rw [process_validator_creation, processFrom_spec]
  simp only [statusOf, findRequest_update_self]
  rcases h : findRequest { s with keys := s.keys ++ producedKeys rid fr oracle 0 n } rid with
    _ | r
  · have : findRequest s rid = none := h
    simp [this]
  · have : findRequest s rid = some r := h
    simp [this]

/-- Stored status of the job's request after a full run whose terminal status
write is swallowed: unchanged. -/
theorem statusOf_process_fault (rid : String) (n : Nat) (fr : String)
    (oracle : Nat → StepOutcome) (now : Nat) (s : Store) :
    statusOf (process_validator_creation rid n fr oracle true now s) rid =
      statusOf s rid := by
  rw [process_validator_creation, processFrom_spec]
  rfl

/-- A keys-only store update does not affect request lookups. -/
theorem statusOf_keys_update (s : Store) (l : List ValidatorKey) (rid : String) :
    statusOf { s with keys := l } rid = statusOf s rid := rfl

/-- A successful lookup is preserved when rows are appended behind it. -/
theorem findRequest_append_of_some (s : Store) (rid : String) (r : ValidatorRequest)
    (l : List ValidatorRequest) (h : findRequest s rid = some r) :
    findRequest { s with requests := s.requests ++ l } rid = some r := by
  unfold findRequest at h ⊢
  simp only [List.find?_append, h]
  rfl

/-- Appending one row to a table that has no row for `rid` makes the lookup
find the new row exactly when its id is `rid`. -/
theorem findRequest_append_fresh (s : Store) (rid : String) (r0 : ValidatorRequest)
    (h : findRequest s rid = none) :
    findRequest { s with requests := s.requests ++ [r0] } rid =
      if r0.request_id == rid then some r0 else none := by
  unfold findRequest at h ⊢
  simp only [List.find?_append, h]
  cases hr : r0.request_id == rid <;> simp [List.find?_cons, hr]

/-- Removing one job from a duplicate-free job list keeps it duplicate-free,
and every remaining job has a different request id from the removed one. -/
theorem nodup_ids_remove (pre post : List JobState) (j : JobState)
    (h : ((pre ++ j :: post).map (fun x => x.request_id)).Nodup) :
    ((pre ++ post).map (fun x => x.request_id)).Nodup ∧
      ∀ j' ∈ pre ++ post, j'.request_id ≠ j.request_id := by
  rw [List.map_append, List.map_cons] at h
  constructor
  · rw [List.map_append]
    exact h.sublist ((List.sublist_cons_self _ _).append_left _)
  · intro j' hj'
    rcases List.mem_append.mp hj' with hj' | hj'
    · intro heq
      have hmem : j'.request_id ∈ pre.map (fun x => x.request_id) :=
        List.mem_map_of_mem _ hj'
      exact (List.nodup_append.mp h).2.2 hmem
        (by rw [heq]; exact List.mem_cons_self _ _)
    · intro heq
      have hnd2 := (List.nodup_append.mp h).2.1
      exact (List.nodup_cons.mp hnd2).1
        (by rw [← heq]; exact List.mem_map_of_mem _ hj')

/-- Every system step preserves the invariant `Inv`. -/
theorem step_preserves_Inv (σ σ' : Sys) (h : Step σ σ') (hInv : Inv σ) : Inv σ' := by
  obtain ⟨hjob, hnd⟩ := hInv
  cases h with
  | submit rid n fr now hfresh hn =>
    constructor
    · intro j hj
      rcases List.mem_append.mp hj with hj | hj
      · have hst := hjob j hj
        unfold statusOf at hst ⊢
        rcases hfind : findRequest σ.store j.request_id with _ | r
        · rw [hfind] at hst; exact absurd hst (by simp)
        · rw [hfind] at hst
          rw [findRequest_append_of_some _ _ _ _ hfind]
          exact hst
      · have hj : j = ⟨rid, fr, n⟩ := by simpa using hj
        subst hj
        unfold statusOf
        rw [findRequest_append_fresh _ _ _ hfresh]
        simp
    · rw [List.map_append]
      rw [List.nodup_append]
      refine ⟨hnd, by simp, ?_⟩
      intro a ha hb
      simp only [List.map_cons, List.map_nil, List.mem_singleton] at hb
      subst hb
      rcases List.mem_map.mp ha with ⟨jb, hjb, hid⟩
      have hst := hjob jb hjb
      unfold statusOf at hst
      rw [hid, hfresh] at hst
      exact absurd hst (by simp)
  | submitFault => exact ⟨hjob, hnd⟩
  | itemOk pre post j m k hjobs hrem =>
    rw [hjobs] at hjob hnd
    constructor
    · intro j' hj'
      rw [statusOf_keys_update]
      rcases List.mem_append.mp hj' with hj' | hj'
      · exact hjob j' (List.mem_append.mpr (Or.inl hj'))
      · rcases List.mem_cons.mp hj' with hj' | hj'
        · subst hj'
          exact hjob j (List.mem_append.mpr (Or.inr (List.mem_cons_self _ _)))
        · exact hjob j' (List.mem_append.mpr (Or.inr (List.mem_cons_of_mem _ hj')))
    · have : (pre ++ { j with remaining := m } :: post).map (fun x => x.request_id) =
          (pre ++ j :: post).map (fun x => x.request_id) := by
        simp [List.map_append]
      rw [this]
      exact hnd
  | itemFail pre post j m wf now hjobs hrem =>
    rw [hjobs] at hjob hnd
    obtain ⟨hnd', hne⟩ := nodup_ids_remove pre post j hnd
    refine ⟨?_, hnd'⟩
    intro j' hj'
    unfold statusOf
    rw [findRequest_update_ne _ _ _ _ _ _ (fun heq => hne j' hj' heq.symm)]
    have : j' ∈ pre ++ j :: post := by
      rcases List.mem_append.mp hj' with hj' | hj'
      · exact List.mem_append.mpr (Or.inl hj')
      · exact List.mem_append.mpr (Or.inr (List.mem_cons_of_mem _ hj'))
    exact hjob j' this
  | finish pre post j wf now hjobs hrem =>
    rw [hjobs] at hjob hnd
    obtain ⟨hnd', hne⟩ := nodup_ids_remove pre post j hnd
    refine ⟨?_, hnd'⟩
    intro j' hj'
    unfold statusOf
    rw [findRequest_update_ne _ _ _ _ _ _ (fun heq => hne j' hj' heq.symm)]
    have : j' ∈ pre ++ j :: post := by
      rcases List.mem_append.mp hj' with hj' | hj'
      · exact List.mem_append.mpr (Or.inl hj')
      · exact List.mem_append.mpr (Or.inr (List.mem_cons_of_mem _ hj'))
    exact hjob j' this

/-- Under the invariant, one system step never changes the stored status or
the stored key set of a request that is already terminal. -/
theorem step_stable_terminal (σ σ' : Sys) (h : Step σ σ') (hInv : Inv σ)
    (rid : String) (st : Status)
    (hterm : st = Status.successful ∨ st = Status.failed)
    (hst : statusOf σ.store rid = some st) :
    statusOf σ'.store rid = some st ∧ keysFor σ'.store rid = keysFor σ.store rid := by
  obtain ⟨hjob, _⟩ := hInv
  have hne_of_job : ∀ j ∈ σ.jobs, j.request_id ≠ rid := by
    intro j hj heq
    have := hjob j hj
    rw [heq, hst] at this
    rcases hterm with h1 | h1 <;> rw [h1] at this <;> exact absurd this (by simp)
  cases h with
  | submit rid2 n fr now hfresh hn =>
    have hrid2 : rid2 ≠ rid := by
      intro heq
      subst heq
      unfold statusOf at hst
      rw [hfresh] at hst
      exact absurd hst (by simp)
    constructor
    · unfold statusOf at hst ⊢
      rcases hfind : findRequest σ.store rid with _ | r
      · rw [hfind] at hst; exact absurd hst (by simp)
      · rw [hfind] at hst
        rw [findRequest_append_of_some _ _ _ _ hfind]
        exact hst
    · rfl
  | submitFault => exact ⟨hst, rfl⟩
  | itemOk pre post j m k hjobs hrem =>
    have hj : j ∈ σ.jobs := by rw [hjobs]; simp
    have hne := hne_of_job j hj
    constructor
    · rw [statusOf_keys_update]; exact hst
    · unfold keysFor
      simp only [List.filter_append]
      rw [show (List.filter (fun kk => kk.request_id == rid)
          [⟨j.request_id, k, j.fee_recipient⟩] : List ValidatorKey) = [] by
        simp [List.filter_cons, hne]]
      simp
  | itemFail pre post j m wf now hjobs hrem =>
    have hj : j ∈ σ.jobs := by rw [hjobs]; simp
    have hne := hne_of_job j hj
    constructor
    · unfold statusOf
      rw [findRequest_update_ne _ _ _ _ _ _ hne]
      exact hst
    · unfold keysFor
      rw [update_request_status_keys]
  | finish pre post j wf now hjobs hrem =>
    have hj : j ∈ σ.jobs := by rw [hjobs]; simp
    have hne := hne_of_job j hj
    constructor
    · unfold statusOf
      rw [findRequest_update_ne _ _ _ _ _ _ hne]
      exact hst
    · unfold keysFor
      rw [update_request_status_keys]

/-- A request that exists and has no in-flight job is never touched again:
its stored status, its existence, and the absence of a job for it are all
preserved by every step (a fresh submission cannot reuse the id, and other
jobs only write their own rows). -/
theorem step_stable_nojob (σ σ' : Sys) (h : Step σ σ') (rid : String)
    (hpresent : (findRequest σ.store rid).isSome) (hnj : NoJob σ rid) :
    statusOf σ'.store rid = statusOf σ.store rid ∧
      (findRequest σ'.store rid).isSome ∧ NoJob σ' rid := by
  cases h with
  | submit rid2 n fr now hfresh hn =>
    have hrid2 : rid2 ≠ rid := by
      intro heq
      subst heq
      rw [hfresh] at hpresent
      exact absurd hpresent (by simp)
    obtain ⟨r, hr⟩ := Option.isSome_iff_exists.mp hpresent
    have hkeep := findRequest_append_of_some σ.store rid r
      [⟨rid2, n, fr, Status.started, now, now⟩] hr
    refine ⟨?_, ?_, ?_⟩
    · unfold statusOf
      rw [hkeep, hr]
    · rw [hkeep]; rfl
    · intro j hj
      rcases List.mem_append.mp hj with hj | hj
      · exact hnj j hj
      · have : j = ⟨rid2, fr, n⟩ := by simpa using hj
        rw [this]
        exact hrid2
  | submitFault => exact ⟨rfl, hpresent, hnj⟩
  | itemOk pre post j m k hjobs hrem =>
    have hj : j ∈ σ.jobs := by rw [hjobs]; simp
    refine ⟨rfl, hpresent, ?_⟩
    intro j' hj'
    rcases List.mem_append.mp hj' with hj' | hj'
    · exact hnj j' (by rw [hjobs]; exact List.mem_append.mpr (Or.inl hj'))
    · rcases List.mem_cons.mp hj' with hj' | hj'
      · rw [hj']
        exact hnj j hj
      · exact hnj j' (by rw [hjobs]; exact List.mem_append.mpr (Or.inr (List.mem_cons_of_mem _ hj')))
  | itemFail pre post j m wf now hjobs hrem =>
    have hj : j ∈ σ.jobs := by rw [hjobs]; simp
    have hne := hnj j hj
    refine ⟨?_, ?_, ?_⟩
    · unfold statusOf
      rw [findRequest_update_ne _ _ _ _ _ _ hne]
    · rw [findRequest_update_ne _ _ _ _ _ _ hne]
      exact hpresent
    · intro j' hj'
      rcases List.mem_append.mp hj' with hj' | hj'
      · exact hnj j' (by rw [hjobs]; exact List.mem_append.mpr (Or.inl hj'))
      · exact hnj j' (by rw [hjobs]; exact List.mem_append.mpr (Or.inr (List.mem_cons_of_mem _ hj')))
  | finish pre post j wf now hjobs hrem =>
    have hj : j ∈ σ.jobs := by rw [hjobs]; simp
    have hne := hnj j hj
    refine ⟨?_, ?_, ?_⟩
    · unfold statusOf
      rw [findRequest_update_ne _ _ _ _ _ _ hne]
    · rw [findRequest_update_ne _ _ _ _ _ _ hne]
      exact hpresent
    · intro j' hj'
      rcases List.mem_append.mp hj' with hj' | hj'
      · exact hnj j' (by rw [hjobs]; exact List.mem_append.mpr (Or.inl hj'))
      · exact hnj j' (by rw [hjobs]; exact List.mem_append.mpr (Or.inr (List.mem_cons_of_mem _ hj')))

/-- Invariant preservation along any finite run. -/
theorem steps_preserve_Inv (σ σ' : Sys) (h : Steps σ σ') (hInv : Inv σ) : Inv σ' := by
  induction h with
  | refl => exact hInv
  | tail σ2 σ3 hs hstep ih => exact step_preserves_Inv _ _ hstep ih

/-- Terminal stability along any finite run. -/
theorem steps_stable_terminal (σ σ' : Sys) (h : Steps σ σ') (hInv : Inv σ)
    (rid : String) (st : Status)
    (hterm : st = Status.successful ∨ st = Status.failed)
    (hst : statusOf σ.store rid = some st) :
    statusOf σ'.store rid = some st ∧ keysFor σ'.store rid = keysFor σ.store rid := by
  induction h with
  | refl => exact ⟨hst, rfl⟩
  | tail σ2 σ3 hs hstep ih =>
    obtain ⟨h1, h2⟩ := ih
    have hInv2 := steps_preserve_Inv _ _ hs hInv
    obtain ⟨h1', h2'⟩ := step_stable_terminal _ _ hstep hInv2 rid st hterm h1
    exact ⟨h1', h2'.trans h2⟩

/-- Status stability for a jobless existing request, along any finite run. -/
theorem steps_stable_nojob (σ σ' : Sys) (h : Steps σ σ') (rid : String)
    (hpresent : (findRequest σ.store rid).isSome) (hnj : NoJob σ rid) :
    statusOf σ'.store rid = statusOf σ.store rid ∧
      (findRequest σ'.store rid).isSome ∧ NoJob σ' rid := by
  induction h with
  | refl => exact ⟨rfl, hpresent, hnj⟩
  | tail σ2 σ3 hs hstep ih =>
    obtain ⟨h1, h2, h3⟩ := ih
    obtain ⟨g1, g2, g3⟩ := step_stable_nojob _ _ hstep rid h2 h3
    exact ⟨g1.trans h1, g2, g3⟩

/-- Status-poll helper: unknown id answers 404. -/
theorem get_status_of_none (rid : String) (s : Store)
    (h : findRequest s rid = none) :
    get_validator_status rid s = Except.error ApiError.notFound := by
  simp [get_validator_status, h]

/-- Status-poll helper: a `started` request answers status only. -/
theorem get_status_of_started (rid : String) (s : Store) (r : ValidatorRequest)
    (h : findRequest s rid = some r) (hst : r.status = Status.started) :
    get_validator_status rid s = Except.ok ⟨Status.started, none, none⟩ := by
  simp [get_validator_status, h, hst]

/-- Status-poll helper: a `failed` request answers status plus the generic
message and no key list. -/
theorem get_status_of_failed (rid : String) (s : Store) (r : ValidatorRequest)
    (h : findRequest s rid = some r) (hst : r.status = Status.failed) :
    get_validator_status rid s =
      Except.ok ⟨Status.failed, none, some "Error processing request"⟩ := by
  simp [get_validator_status, h, hst]

/-- Status-poll helper: a `successful` request answers status plus the stored
key values for that id. -/
theorem get_status_of_successful (rid : String) (s : Store) (r : ValidatorRequest)
    (h : findRequest s rid = some r) (hst : r.status = Status.successful) :
    get_validator_status rid s =
      Except.ok ⟨Status.successful, some (keysFor s rid), none⟩ := by
  simp [get_validator_status, h, hst]

/-- The status poll is a function of the stored status and stored key list of
the polled id. -/
theorem get_status_congr (rid : String) (s s2 : Store)
    (hst : statusOf s2 rid = statusOf s rid)
    (hk : keysFor s2 rid = keysFor s rid) :
    get_validator_status rid s2 = get_validator_status rid s := by
  unfold statusOf at hst
  rcases h1 : findRequest s rid with _ | r
  · rw [h1] at hst
    rcases h2 : findRequest s2 rid with _ | r2
    · rw [get_status_of_none rid s h1, get_status_of_none rid s2 h2]
    · rw [h2] at hst
      exact absurd hst (by simp)
  · rw [h1] at hst
    rcases h2 : findRequest s2 rid with _ | r2
    · rw [h2] at hst
      exact absurd hst (by simp)
    · rw [h2, Option.map_some', Option.map_some', Option.some_inj] at hst
      cases hr : r.status with
      | started =>
        rw [get_status_of_started rid s r h1 hr,
          get_status_of_started rid s2 r2 h2 (by rw [hst, hr])]
      | successful =>
        rw [get_status_of_successful rid s r h1 hr,
          get_status_of_successful rid s2 r2 h2 (by rw [hst, hr]), hk]
      | failed =>
        rw [get_status_of_failed rid s r h1 hr,
          get_status_of_failed rid s2 r2 h2 (by rw [hst, hr])]

/-! ## Claims -/

/-- Claim C1, counterexample to the claim as stated: the claimed equivalence
"the number of persisted Key records equals `n` if and only if the request
reaches `successful`" fails on the code. Run a request with
`requestedCount = 1` whose single key write succeeds but whose terminal
status write raises (the exception is swallowed by
`update_request_status`): the background job finishes with exactly
`1 = n` persisted keys while the request's status stays `started`, never
`successful`. -/
theorem C1_counterexample :
    ¬ (countKeys (process_validator_creation "r" 1 "f" (fun _ => StepOutcome.ok "k") true 5
          ⟨[⟨"r", 1, "f", Status.started, 0, 0⟩], []⟩) "r" = 1 ↔
        statusOf (process_validator_creation "r" 1 "f" (fun _ => StepOutcome.ok "k") true 5
          ⟨[⟨"r", 1, "f", Status.started, 0, 0⟩], []⟩) "r" = some Status.successful) := by
  decide

/-- Claim C1 (amended): for an accepted request with `requestedCount = n > 0`
(present in the store, no keys yet), after its background job has finished,
the number of persisted Key records is never more than `n`, is exactly `n`
when the status became `successful`, and is strictly less than `n` when the
status became `failed`; and — provided the terminal status write itself
succeeds — the count equals `n` if and only if the request reaches
`successful`. -/
theorem C1_keycount_iff_successful (rid : String) (n : Nat) (fr : String)
    (oracle : Nat → StepOutcome) (now : Nat) (s : Store) (r : ValidatorRequest)
    (_hn : 0 < n)
    (hreq : findRequest s rid = some r)
    (hkeys : countKeys s rid = 0) :
    countKeys (process_validator_creation rid n fr oracle false now s) rid ≤ n ∧
    (statusOf (process_validator_creation rid n fr oracle false now s) rid =
        some Status.successful →
      countKeys (process_validator_creation rid n fr oracle false now s) rid = n) ∧
    (statusOf (process_validator_creation rid n fr oracle false now s) rid =
        some Status.failed →
      countKeys (process_validator_creation rid n fr oracle false now s) rid < n) ∧
    (countKeys (process_validator_creation rid n fr oracle false now s) rid = n ↔
      statusOf (process_validator_creation rid n fr oracle false now s) rid =
        some Status.successful) := by
  have hcount : countKeys (process_validator_creation rid n fr oracle false now s) rid =
      (producedKeys rid fr oracle 0 n).length := by
    rw [countKeys_process, hkeys, Nat.zero_add]
  cases hrun : runOk oracle 0 n with
  | false =>
    have hstatus : statusOf (process_validator_creation rid n fr oracle false now s) rid =
        some Status.failed := by
      rw [statusOf_process]
      unfold statusOf
      rw [hreq]
      simp [hrun]
    have hlt : countKeys (process_validator_creation rid n fr oracle false now s) rid < n := by
      rw [hcount]
      have hle := producedKeys_length_le rid fr oracle n 0
      have hne : (producedKeys rid fr oracle 0 n).length ≠ n := by
        intro heq
        have htrue := (producedKeys_length_eq_iff rid fr oracle n 0).mp heq
        rw [htrue] at hrun
        exact absurd hrun (by simp)
      omega
    refine ⟨by omega, ?_, fun _ => hlt, ?_⟩
    · intro hsucc
      rw [hstatus] at hsucc
      exact absurd hsucc (by simp)
    · rw [hstatus]
      constructor
      · intro heq
        exact absurd heq (by omega)
      · intro heq
        exact absurd heq (by simp)
  | true =>
    have hstatus : statusOf (process_validator_creation rid n fr oracle false now s) rid =
        some Status.successful := by
      rw [statusOf_process]
      unfold statusOf
      rw [hreq]
      simp [hrun]
    have heqn : countKeys (process_validator_creation rid n fr oracle false now s) rid = n := by
      rw [hcount]
      exact (producedKeys_length_eq_iff rid fr oracle n 0).mpr hrun
    refine ⟨by omega, fun _ => heqn, ?_, ?_⟩
    · intro hfail
      rw [hstatus] at hfail
      exact absurd hfail (by simp)
    · rw [hstatus]
      exact ⟨fun _ => rfl, fun _ => heqn⟩

/-- Claim C1 (amended), concrete witness: `requestedCount = 1`, every write
succeeds — the job persists exactly 1 key, status becomes `successful`. -/
theorem C1_keycount_iff_successful_witness :
    countKeys (process_validator_creation "r" 1 "f" (fun _ => StepOutcome.ok "k") false 5
        ⟨[⟨"r", 1, "f", Status.started, 0, 0⟩], []⟩) "r" ≤ 1 ∧
    (countKeys (process_validator_creation "r" 1 "f" (fun _ => StepOutcome.ok "k") false 5
        ⟨[⟨"r", 1, "f", Status.started, 0, 0⟩], []⟩) "r" = 1 ↔
      statusOf (process_validator_creation "r" 1 "f" (fun _ => StepOutcome.ok "k") false 5
        ⟨[⟨"r", 1, "f", Status.started, 0, 0⟩], []⟩) "r" = some Status.successful) := by
  have h := C1_keycount_iff_successful "r" 1 "f" (fun _ => StepOutcome.ok "k") 5
    ⟨[⟨"r", 1, "f", Status.started, 0, 0⟩], []⟩ ⟨"r", 1, "f", Status.started, 0, 0⟩
    (by decide) (by decide) (by decide)
  exact ⟨h.1, h.2.2.2⟩

/-- Claim C2: if the first `i` iterations of a request's background job
succeed and iteration `i` faults (key generation raises, or the key commit
raises — `isOk = false` covers both), the job writes status `failed` and
stops: exactly the `i` previously persisted Key records are in the store for
that request — in generation order, untouched — and no later item is
processed. -/
theorem C2_item_fault_stops_job (rid : String) (n : Nat) (fr : String)
    (oracle : Nat → StepOutcome) (now : Nat) (s : Store) (r : ValidatorRequest) (i : Nat)
    (hreq : findRequest s rid = some r)
    (hkeys : countKeys s rid = 0)
    (hi : i < n)
    (hpre : runOk oracle 0 i = true)
    (hfault : (oracle i).isOk = false) :
    statusOf (process_validator_creation rid n fr oracle false now s) rid =
      some Status.failed ∧
    countKeys (process_validator_creation rid n fr oracle false now s) rid = i ∧
    keysFor (process_validator_creation rid n fr oracle false now s) rid =
      (producedKeys rid fr oracle 0 i).map (fun kk => kk.key) := by
  obtain ⟨hpk, hrun⟩ := producedKeys_stop rid fr oracle i 0 hpre
    (by rw [Nat.zero_add]; exact hfault) n hi
  have hfe : keysFor s rid = [] := by
    unfold countKeys at hkeys
    unfold keysFor
    rw [List.length_eq_zero.mp hkeys]
    rfl
  refine ⟨?_, ?_, ?_⟩
  · rw [statusOf_process]
    unfold statusOf
    rw [hreq]
    simp [hrun]
  · rw [countKeys_process, hkeys, Nat.zero_add, hpk]
    exact (producedKeys_length_eq_iff rid fr oracle i 0).mpr hpre
  · rw [keysFor_process, hpk, hfe, List.nil_append]

/-- Claim C2, concrete witness — the spec's Scenario B: `requestedCount = 5`,
persistence fault on the 3rd key write (item index 2) — final state is
status `failed` with exactly the 2 earlier keys persisted. -/
theorem C2_item_fault_stops_job_witness :
    statusOf (process_validator_creation "r" 5 "f"
        (fun j => if j == 0 then StepOutcome.ok "k0"
          else if j == 1 then StepOutcome.ok "k1" else StepOutcome.persistFail) false 9
        ⟨[⟨"r", 5, "f", Status.started, 0, 0⟩], []⟩) "r" = some Status.failed ∧
    countKeys (process_validator_creation "r" 5 "f"
        (fun j => if j == 0 then StepOutcome.ok "k0"
          else if j == 1 then StepOutcome.ok "k1" else StepOutcome.persistFail) false 9
        ⟨[⟨"r", 5, "f", Status.started, 0, 0⟩], []⟩) "r" = 2 ∧
    keysFor (process_validator_creation "r" 5 "f"
        (fun j => if j == 0 then StepOutcome.ok "k0"
          else if j == 1 then StepOutcome.ok "k1" else StepOutcome.persistFail) false 9
        ⟨[⟨"r", 5, "f", Status.started, 0, 0⟩], []⟩) "r" = ["k0", "k1"] := by
  have h := C2_item_fault_stops_job "r" 5 "f"
    (fun j => if j == 0 then StepOutcome.ok "k0"
      else if j == 1 then StepOutcome.ok "k1" else StepOutcome.persistFail) 9
    ⟨[⟨"r", 5, "f", Status.started, 0, 0⟩], []⟩ ⟨"r", 5, "f", Status.started, 0, 0⟩ 2
    (by decide) (by decide) (by decide) (by decide) (by decide)
  refine ⟨h.1, h.2.1, ?_⟩
  rw [h.2.2]
  decide

/-- Claim C3: starting from any system state satisfying the invariant, once a
request's stored status is terminal (`successful` or `failed`), no sequence
of further system steps ever changes that status or that request's stored key
list, and every subsequent status poll returns the same response as before. -/
theorem C3_terminal_status_stable (σ σ2 : Sys) (hInv : Inv σ) (hs : Steps σ σ2)
    (rid : String) (st : Status)
    (hterm : st = Status.successful ∨ st = Status.failed)
    (hst : statusOf σ.store rid = some st) :
    statusOf σ2.store rid = some st ∧
    keysFor σ2.store rid = keysFor σ.store rid ∧
    get_validator_status rid σ2.store = get_validator_status rid σ.store := by
  obtain ⟨h1, h2⟩ := steps_stable_terminal σ σ2 hs hInv rid st hterm hst
  exact ⟨h1, h2, get_status_congr rid σ.store σ2.store (h1.trans hst.symm) h2⟩

/-- Claim C3, concrete witness: a system holding one `failed` request with one
partial key and no in-flight jobs; the empty run leaves its status, key list
and poll response unchanged. -/
theorem C3_terminal_status_stable_witness :
    statusOf (Sys.mk ⟨[⟨"r", 2, "f", Status.failed, 0, 1⟩], [⟨"r", "k0", "f"⟩]⟩ []).store "r" =
      some Status.failed ∧
    get_validator_status "r"
        (Sys.mk ⟨[⟨"r", 2, "f", Status.failed, 0, 1⟩], [⟨"r", "k0", "f"⟩]⟩ []).store =
      get_validator_status "r"
        (Sys.mk ⟨[⟨"r", 2, "f", Status.failed, 0, 1⟩], [⟨"r", "k0", "f"⟩]⟩ []).store := by
  have h := C3_terminal_status_stable
    (Sys.mk ⟨[⟨"r", 2, "f", Status.failed, 0, 1⟩], [⟨"r", "k0", "f"⟩]⟩ [])
    (Sys.mk ⟨[⟨"r", 2, "f", Status.failed, 0, 1⟩], [⟨"r", "k0", "f"⟩]⟩ [])
    ⟨by simp, by simp⟩
    (Steps.refl _) "r" Status.failed (Or.inr rfl) (by decide)
  exact ⟨h.1, h.2.2⟩

/-- Claim C4: if the initial commit of the new Request row raises, the
submission handler surfaces the persistence error synchronously to the
caller, durably creates no Request row (the store is returned unchanged),
and spawns no background task. -/
theorem C4_submit_persistence_failure (rid : String) (n : Nat) (fr : String)
    (now : Nat) (s : Store) :
    create_validator_request rid n fr true now s =
      (Except.error ApiError.persistenceError, s, []) := rfl

/-- Claim C5: for a request whose background job completed successfully (all
`n` generations succeed, generator yielding pairwise-distinct values — the
code draws 128-bit random hex strings), the status poll returns
`successful` together with all persisted key values for that id, in
insertion = generation order (item 0 first), without duplicates. -/
theorem C5_successful_returns_ordered_keys (rid fr : String) (n : Nat) (k : Nat → String)
    (now : Nat) (s : Store) (r : ValidatorRequest)
    (hreq : findRequest s rid = some r)
    (hkeys : countKeys s rid = 0)
    (hinj : ∀ a b, a < n → b < n → k a = k b → a = b) :
    get_validator_status rid
        (process_validator_creation rid n fr (fun j => StepOutcome.ok (k j)) false now s) =
      Except.ok ⟨Status.successful, some ((List.range n).map k), none⟩ ∧
    ((List.range n).map k).Nodup := by
  have hrun := runOk_all_ok k n 0
  have hs1 : process_validator_creation rid n fr (fun j => StepOutcome.ok (k j)) false now s =
      update_request_status rid Status.successful false now
        { s with keys :=
            s.keys ++ producedKeys rid fr (fun j => StepOutcome.ok (k j)) 0 n } := by
    rw [process_validator_creation, processFrom_spec]
    rw [hrun]
    rfl
  have hfind1 : findRequest
      (process_validator_creation rid n fr (fun j => StepOutcome.ok (k j)) false now s) rid =
      some { r with status := Status.successful, updated_at := now } := by
    rw [hs1, findRequest_update_self]
    have hsame : findRequest
        { s with keys :=
            s.keys ++ producedKeys rid fr (fun j => StepOutcome.ok (k j)) 0 n } rid =
        findRequest s rid := rfl
    rw [hsame, hreq]
    rfl
  have hfe : keysFor s rid = [] := by
    unfold countKeys at hkeys
    unfold keysFor
    rw [List.length_eq_zero.mp hkeys]
    rfl
  have hkeys1 : keysFor
      (process_validator_creation rid n fr (fun j => StepOutcome.ok (k j)) false now s) rid =
      (List.range n).map k := by
    rw [keysFor_process, hfe, List.nil_append, producedKeys_all_ok, List.map_map]
    refine List.map_congr_left ?_
    intro a _
    simp
  refine ⟨?_, ?_⟩
  · rw [get_status_of_successful rid _ _ hfind1 rfl, hkeys1]
  · refine List.Nodup.map_on ?_ (List.nodup_range n)
    intro x hx y hy hxy
    exact hinj x y (List.mem_range.mp hx) (List.mem_range.mp hy) hxy

/-- Claim C5, concrete witness: a 2-key request whose generator yields "a"
then "b"; the poll returns `successful` with keys `["a", "b"]` in generation
order and without duplicates. -/
theorem C5_successful_returns_ordered_keys_witness :
    get_validator_status "r" (process_validator_creation "r" 2 "f"
        (fun j => StepOutcome.ok (if j == 0 then "a" else "b")) false 9
        ⟨[⟨"r", 2, "f", Status.started, 0, 0⟩], []⟩) =
      Except.ok ⟨Status.successful, some ["a", "b"], none⟩ ∧
    (["a", "b"] : List String).Nodup := by
  have h := C5_successful_returns_ordered_keys "r" "f" 2
    (fun j => if j == 0 then "a" else "b") 9
    ⟨[⟨"r", 2, "f", Status.started, 0, 0⟩], []⟩ ⟨"r", 2, "f", Status.started, 0, 0⟩
    (by decide) (by decide) ?_
  · refine ⟨?_, ?_⟩
    · have h1 := h.1
      rw [show ((List.range 2).map fun j => if j == 0 then "a" else "b") = ["a", "b"]
        from rfl] at h1
      exact h1
    · have h2 := h.2
      rw [show ((List.range 2).map fun j => if j == 0 then "a" else "b") = ["a", "b"]
        from rfl] at h2
      exact h2
  · intro a b ha hb hab
    interval_cases a <;> interval_cases b <;> simp_all

/-- Claim C6: the status poll is determined by the stored Request: absent id
answers 404 `NotFound`; a `started` request answers the bare status with no
key list and no message; a `failed` request answers the status plus the
generic message `"Error processing request"` with no key list (partial keys
are not surfaced). -/
theorem C6_get_status_by_stored_request (rid : String) (s : Store) :
    (findRequest s rid = none →
      get_validator_status rid s = Except.error ApiError.notFound) ∧
    (∀ r : ValidatorRequest, findRequest s rid = some r → r.status = Status.started →
      get_validator_status rid s = Except.ok ⟨Status.started, none, none⟩) ∧
    (∀ r : ValidatorRequest, findRequest s rid = some r → r.status = Status.failed →
      get_validator_status rid s =
        Except.ok ⟨Status.failed, none, some "Error processing request"⟩) :=
  ⟨fun h => get_status_of_none rid s h,
   fun r h hst => get_status_of_started rid s r h hst,
   fun r h hst => get_status_of_failed rid s r h hst⟩

/-- Claim C6, concrete witness: an unknown id answers 404; a `started`
request answers only its status; a `failed` request with one partial key
answers the status plus the generic message and no key list. -/
theorem C6_get_status_by_stored_request_witness :
    get_validator_status "x" ⟨[], []⟩ = Except.error ApiError.notFound ∧
    get_validator_status "a" ⟨[⟨"a", 2, "f", Status.started, 0, 0⟩], []⟩ =
      Except.ok ⟨Status.started, none, none⟩ ∧
    get_validator_status "b" ⟨[⟨"b", 2, "f", Status.failed, 0, 0⟩], [⟨"b", "k", "f"⟩]⟩ =
      Except.ok ⟨Status.failed, none, some "Error processing request"⟩ :=
  ⟨(C6_get_status_by_stored_request "x" ⟨[], []⟩).1 (by decide),
   (C6_get_status_by_stored_request "a" ⟨[⟨"a", 2, "f", Status.started, 0, 0⟩], []⟩).2.1
     ⟨"a", 2, "f", Status.started, 0, 0⟩ (by decide) rfl,
   (C6_get_status_by_stored_request "b"
       ⟨[⟨"b", 2, "f", Status.failed, 0, 0⟩], [⟨"b", "k", "f"⟩]⟩).2.2
     ⟨"b", 2, "f", Status.failed, 0, 0⟩ (by decide) rfl⟩

/-- Claim C7: `update_request_status` on an absent id changes no stored
record and (being a total function into `Store`) raises nothing to its
caller — the miss is only logged; on a present id the status field and
`updated_at` are overwritten unconditionally with the new values, whatever
the current status is (last-write-wins), and the keys table is untouched. -/
theorem C7_update_status_semantics (rid : String) (st : Status) (now : Nat) (s : Store) :
    (findRequest s rid = none → update_request_status rid st false now s = s) ∧
    (∀ r : ValidatorRequest, findRequest s rid = some r →
      findRequest (update_request_status rid st false now s) rid =
        some { r with status := st, updated_at := now } ∧
      (update_request_status rid st false now s).keys = s.keys) := by
  constructor
  · intro h
    unfold findRequest at h
    show { s with requests := setStatusFirst rid st now s.requests } = s
    rw [setStatusFirst_of_none rid st now s.requests h]
  · intro r h
    refine ⟨?_, update_request_status_keys rid st false now s⟩
    rw [findRequest_update_self, h]
    rfl

/-- Claim C7, concrete witness: a write against an unknown id leaves the
store intact; a write against a `failed` request overwrites it to
`successful` and stamps `updated_at` — no check of the current status. -/
theorem C7_update_status_semantics_witness :
    update_request_status "z" Status.failed false 7
        ⟨[⟨"a", 1, "f", Status.successful, 0, 0⟩], []⟩ =
      ⟨[⟨"a", 1, "f", Status.successful, 0, 0⟩], []⟩ ∧
    findRequest (update_request_status "a" Status.successful false 7
        ⟨[⟨"a", 1, "f", Status.failed, 0, 0⟩], []⟩) "a" =
      some ⟨"a", 1, "f", Status.successful, 0, 7⟩ := by
  refine ⟨(C7_update_status_semantics "z" Status.failed 7
    ⟨[⟨"a", 1, "f", Status.successful, 0, 0⟩], []⟩).1 (by decide), ?_⟩
  have h := (C7_update_status_semantics "a" Status.successful 7
    ⟨[⟨"a", 1, "f", Status.failed, 0, 0⟩], []⟩).2 ⟨"a", 1, "f", Status.failed, 0, 0⟩
    (by decide)
  exact h.1

/-- Claim C8: for any `n > 1`, a successful submission returns the 202
response carrying the correlation id while the keys table is still exactly
as before the call — none of the `n` keys has been generated yet; the
handler's entire synchronous store effect is the single Request-row insert
(the same one-row append whatever `n` is), and the `n`-item work is handed
off as exactly one pending background task. -/
theorem C8_submit_nonblocking (rid : String) (n : Nat) (fr : String) (now : Nat)
    (s : Store) (_hn : 1 < n) :
    (create_validator_request rid n fr false now s).1 =
      Except.ok ⟨rid, "Validator creation in progress"⟩ ∧
    (create_validator_request rid n fr false now s).2.1.keys = s.keys ∧
    (create_validator_request rid n fr false now s).2.1.requests =
      s.requests ++ [⟨rid, n, fr, Status.started, now, now⟩] ∧
    (create_validator_request rid n fr false now s).2.2 = [⟨rid, n, fr⟩] :=
  ⟨rfl, rfl, rfl, rfl⟩

/-- Claim C8, concrete witness: a 2-key submission against the empty store. -/
theorem C8_submit_nonblocking_witness :
    (create_validator_request "r" 2 "f" false 4 ⟨[], []⟩).1 =
      Except.ok ⟨"r", "Validator creation in progress"⟩ ∧
    (create_validator_request "r" 2 "f" false 4 ⟨[], []⟩).2.1.keys = [] ∧
    (create_validator_request "r" 2 "f" false 4 ⟨[], []⟩).2.2 = [⟨"r", 2, "f"⟩] := by
  have h := C8_submit_nonblocking "r" 2 "f" 4 ⟨[], []⟩ (by decide)
  exact ⟨h.1, h.2.1, h.2.2.2⟩

/-- Claim C9, counterexample to the claim as stated: the fee recipient
`0x` + 40 hex characters + `"\n"` does not match "0x followed by exactly 40
hexadecimal characters", yet Python's `re.match(r"^0x[a-fA-F0-9]{40}$")`
accepts it (`$` also matches just before a single trailing newline), so the
submission is not rejected: the service answers 202, creates the Request row
and spawns a background job for it. -/
theorem C9_counterexample :
    post_validators 3 "0x1234567890abcdef1234567890abcdef12345678\n" "r" false 3 ⟨[], []⟩ ≠
      (Except.error ApiError.validationError, ⟨[], []⟩, []) ∧
    post_validators 3 "0x1234567890abcdef1234567890abcdef12345678\n" "r" false 3 ⟨[], []⟩ =
      (Except.ok ⟨"r", "Validator creation in progress"⟩,
        ⟨[⟨"r", 3, "0x1234567890abcdef1234567890abcdef12345678\n", Status.started, 3, 3⟩],
          []⟩,
        [⟨"r", 3, "0x1234567890abcdef1234567890abcdef12345678\n"⟩]) := by
  have hok : post_validators 3 "0x1234567890abcdef1234567890abcdef12345678\n" "r" false 3
      ⟨[], []⟩ =
      (Except.ok ⟨"r", "Validator creation in progress"⟩,
        ⟨[⟨"r", 3, "0x1234567890abcdef1234567890abcdef12345678\n", Status.started, 3, 3⟩],
          []⟩,
        [⟨"r", 3, "0x1234567890abcdef1234567890abcdef12345678\n"⟩]) := rfl
  refine ⟨?_, hok⟩
  rw [hok]
  intro h
  simp at h

/-- Claim C9 (amended): a submission whose `num_validators` is zero or
negative, or whose `fee_recipient` fails the source's address check — it is
not `0x` + 40 hex characters, nor that with one trailing newline (which
Python's `$` also accepts) — is rejected by pydantic validation with a 422
before the handler runs: no Request row is created and no background task is
spawned. -/
theorem C9_validation_rejects (num_validators : Int) (fee_recipient : String)
    (rid : String) (commitFault : Bool) (now : Nat) (s : Store)
    (h : num_validators ≤ 0 ∨ validate_ethereum_address fee_recipient = false) :
    post_validators num_validators fee_recipient rid commitFault now s =
      (Except.error ApiError.validationError, s, []) := by
  unfold post_validators parse_create_validator_request
  rcases h with h | h
  · rw [if_pos h]
  · rcases le_or_lt num_validators 0 with h2 | h2
    · rw [if_pos h2]
    · rw [if_neg (not_le.mpr h2), h]
      simp

/-- Claim C9, concrete witness: `num_validators = 0` with a well-formed
address, and `num_validators = 3` with a malformed address, are both
rejected with a validation error, leaving the store empty and spawning
nothing. -/
theorem C9_validation_rejects_witness :
    post_validators 0 "0x1234567890abcdef1234567890abcdef12345678" "r" false 3 ⟨[], []⟩ =
      (Except.error ApiError.validationError, ⟨[], []⟩, []) ∧
    post_validators 3 "invalid_address" "r" false 3 ⟨[], []⟩ =
      (Except.error ApiError.validationError, ⟨[], []⟩, []) :=
  ⟨C9_validation_rejects 0 "0x1234567890abcdef1234567890abcdef12345678" "r" false 3
      ⟨[], []⟩ (Or.inl (by decide)),
   C9_validation_rejects 3 "invalid_address" "r" false 3 ⟨[], []⟩ (Or.inr (by decide))⟩

/-- Claim C10: `update_request_status` swallows every exception raised during
the status write itself — a faulted write returns the store unchanged and,
being total, propagates nothing to the background job that called it.
Consequently, in the execution where all `n` key writes succeed but the
terminal status write fails, all `n` Key records are persisted while the
request stays `started` — and stays `started` through every further system
step, forever (no job for it remains, and its id cannot be resubmitted). -/
theorem C10_status_write_swallowed (rid : String) (n : Nat) (fr : String)
    (k : Nat → String) (now : Nat) (s : Store) (r : ValidatorRequest)
    (hreq : findRequest s rid = some r) (hstart : r.status = Status.started)
    (hkeys : countKeys s rid = 0) :
    (∀ (rid2 : String) (st : Status) (now2 : Nat) (s2 : Store),
      update_request_status rid2 st true now2 s2 = s2) ∧
    countKeys (process_validator_creation rid n fr (fun j => StepOutcome.ok (k j)) true now s)
      rid = n ∧
    statusOf (process_validator_creation rid n fr (fun j => StepOutcome.ok (k j)) true now s)
      rid = some Status.started ∧
    (∀ σ2 : Sys,
      Steps ⟨process_validator_creation rid n fr (fun j => StepOutcome.ok (k j)) true now s,
        []⟩ σ2 →
      statusOf σ2.store rid = some Status.started) := by
  have hst1 : statusOf
      (process_validator_creation rid n fr (fun j => StepOutcome.ok (k j)) true now s) rid =
      some Status.started := by
    rw [statusOf_process_fault]
    unfold statusOf
    rw [hreq, Option.map_some', hstart]
  refine ⟨fun _ _ _ _ => rfl, ?_, hst1, ?_⟩
  · rw [countKeys_process, hkeys, Nat.zero_add, producedKeys_all_ok]
    simp
  · intro σ2 hsteps
    have hpres : (findRequest
        (process_validator_creation rid n fr (fun j => StepOutcome.ok (k j)) true now s)
          rid).isSome := by
      unfold statusOf at hst1
      obtain ⟨r2, hr2, _⟩ := Option.map_eq_some'.mp hst1
      rw [hr2]
      rfl
    obtain ⟨g1, _, _⟩ := steps_stable_nojob _ σ2 hsteps rid hpres
      (fun j hj => absurd hj (List.not_mem_nil j))
    rw [g1]
    exact hst1

/-- Claim C10, concrete witness: a 1-key request whose key write succeeds but
whose terminal status write raises: 1 key persisted, status still
`started`. -/
theorem C10_status_write_swallowed_witness :
    countKeys (process_validator_creation "r" 1 "f" (fun j => StepOutcome.ok ((fun _ => "k") j))
        true 5 ⟨[⟨"r", 1, "f", Status.started, 0, 0⟩], []⟩) "r" = 1 ∧
    statusOf (process_validator_creation "r" 1 "f" (fun j => StepOutcome.ok ((fun _ => "k") j))
        true 5 ⟨[⟨"r", 1, "f", Status.started, 0, 0⟩], []⟩) "r" = some Status.started := by
  have h := C10_status_write_swallowed "r" 1 "f" (fun _ => "k") 5
    ⟨[⟨"r", 1, "f", Status.started, 0, 0⟩], []⟩ ⟨"r", 1, "f", Status.started, 0, 0⟩
    (by decide) rfl (by decide)
  exact ⟨h.2.1, h.2.2.1⟩

end WebServer
